import Mathlib

/-!
Verification of the streeem signaling server and client coordination core.

The server under scrutiny is the WebSocket signaling server
(`apps/signaling/src/server.ts`, the TypeScript source whose compiled copy
lives in `apps/signaling/dist/server.js`); the client side is the
`RoomProvider` context (`apps/web-next/src/contexts/RoomContext.tsx`) and the
`VideoPlayer` component (`apps/web-next/src/components/VideoPlayer.tsx`).
JavaScript `Map`s are embedded as insertion-ordered association lists,
`setTimeout` as an explicit scheduled-timer set with wall-clock expiries, and
each WebSocket/timer callback as one atomic transition of an explicit server
state (the server is single-threaded per message).
-/

/-! ## Identifiers and shared data model (packages/shared/src/events.ts) -/

abbrev UserId := String

abbrev RoomId := String

abbrev ConnId := Nat

abbrev TimerId := Nat

/-- Wire protocol version constant `WS_PROTOCOL_VERSION = 1`. -/
def WS_VERSION : Nat := 1

/-- `ClientInfo = { userId, displayName }`. -/
structure ClientInfo where
  userId : UserId
  displayName : String
deriving Repr, DecidableEq

/-- `PlaybackState = { playing, positionSec, hostTsMs }` (optional `contentId`
omitted: no claim depends on it). Positions and timestamps are rationals,
standing in for JS numbers. -/
structure PlaybackState where
  playing : Bool
  positionSec : Rat
  hostTsMs : Rat
deriving Repr, DecidableEq

/-! ## Association lists with JavaScript `Map` semantics

`Map.get` returns the value for a key; `Map.set` updates an existing key in
place (keeping its insertion position) or appends a fresh key at the end;
`Map.delete` removes the key's entry; iteration follows list order. -/

def alGet {α β : Type} [DecidableEq α] : List (α × β) → α → Option β
  | [], _ => none
  | (k', v') :: rest, k => if k' = k then some v' else alGet rest k

def alSet {α β : Type} [DecidableEq α] : List (α × β) → α → β → List (α × β)
  | [], k, v => [(k, v)]
  | (k', v') :: rest, k, v =>
    if k' = k then (k, v) :: rest else (k', v') :: alSet rest k v

def alDel {α β : Type} [DecidableEq α] : List (α × β) → α → List (α × β)
  | [], _ => []
  | (k', v') :: rest, k => if k' = k then rest else (k', v') :: alDel rest k

/-! ## Client: per-peer ICE candidate buffering (RoomContext.tsx)

`RoomProvider` keeps, per remote peer, an `RTCPeerConnection` in `pcsRef` and
an ordered buffer in `pendingCandidates`.  For one fixed remote peer we track
whether the peer connection exists (`hasPc`), whether its remote description
has been set (`remoteDesc`), the sequence of candidates handed to
`pc.addIceCandidate` (`applied`, in call order), and the pending buffer.
`badApply` records whether some candidate was ever handed to the peer
connection while no remote description was set; the handlers for distinct
peers touch disjoint entries of the two maps, so one peer's state suffices. -/

structure PeerSt where
  hasPc : Bool
  remoteDesc : Bool
  applied : List Nat
  pending : List Nat
  badApply : Bool
deriving Repr, DecidableEq

def initPeer : PeerSt :=
  { hasPc := false, remoteDesc := false, applied := [], pending := [], badApply := false }

/-- One `pc.addIceCandidate(candidate)` call. -/
def applyCand (s : PeerSt) (c : Nat) : PeerSt :=
  { s with applied := s.applied ++ [c], badApply := s.badApply || !s.remoteDesc }

/-- `flushPendingCandidates`: hand every buffered candidate to the peer
connection in FIFO order, then delete the peer's buffer entry. -/
def flushPending (s : PeerSt) : PeerSt :=
  let s1 := s.pending.foldl applyCand s
  { s1 with pending := [] }

/-- Client-side signaling events that touch this peer's negotiation state. -/
inductive PeerEv where
  /-- `handleWebrtcIce` for a candidate from this peer. -/
  | iceArrived (cand : Nat)
  /-- `handleWebrtcOffer` from this peer: create the peer connection if
  absent, `setRemoteDescription`, then flush. -/
  | offerReceived
  /-- `handleWebrtcAnswer` from this peer: if a peer connection exists,
  `setRemoteDescription`, then flush; otherwise do nothing. -/
  | answerReceived
  /-- `createPeerConnection` triggered by `handlePeerJoined` (we are the
  offerer): a fresh peer connection with no remote description; the pending
  buffer is deliberately not flushed here. -/
  | pcCreated
deriving Repr, DecidableEq

def stepPeer (s : PeerSt) : PeerEv → PeerSt
  | .iceArrived c =>
    if s.hasPc && s.remoteDesc then applyCand s c
    else { s with pending := s.pending ++ [c] }
  | .offerReceived =>
    let s1 := if s.hasPc then s else { s with hasPc := true, remoteDesc := false }
    flushPending { s1 with remoteDesc := true }
  | .answerReceived =>
    if s.hasPc then flushPending { s with remoteDesc := true } else s
  | .pcCreated => { s with hasPc := true, remoteDesc := false }

def runPeer (evs : List PeerEv) : PeerSt := evs.foldl stepPeer initPeer

/-- The candidates delivered by the signaling channel, in arrival order. -/
def arrivedCands (evs : List PeerEv) : List Nat :=
  evs.filterMap fun e => match e with | .iceArrived c => some c | _ => none

/-! ## Client: playback snapshot handling (RoomContext.tsx / VideoPlayer.tsx) -/

/-- The client playback state kept in React state: `playbackState` (true =
"playing") and `currentTime`. -/
structure ClientPlayback where
  playing : Bool
  currentTime : Rat
deriving Repr, DecidableEq

/-- The `watch/playback_state` branch of `ws.onmessage` in `RoomContext.tsx`:
`setPlaybackState(state.playing ? "playing" : "paused")` and
`setCurrentTime(state.positionSec)` — the received position is stored as-is,
without any extrapolation from `hostTsMs`. -/
def onPlaybackStateMsg (st : PlaybackState) : ClientPlayback :=
  { playing := st.playing, currentTime := st.positionSec }

/-- What the `VideoPlayer` sync effect can do to the media element's position.
The component imperatively seeks or does nothing; no code path touches
`playbackRate`. -/
inductive SyncAction where
  | seek (target : Rat)
  | noSeek
deriving Repr, DecidableEq

/-- The seek decision of the `VideoPlayer` sync effect (part 3 "Sync Time"):
seek to `currentTime` when `|current - currentTime| > 2` seconds, guarded by
`|currentTime - lastSeekTime| > 1` to prevent seek loops. -/
def videoPlayerSyncSeek (localPos currentTime lastSeek : Rat) : SyncAction :=
  if 2 < |localPos - currentTime| then
    if 1 < |currentTime - lastSeek| then SyncAction.seek currentTime
    else SyncAction.noSeek
  else SyncAction.noSeek

/-- Modelled from the spec: the estimator
`estimatedPosition = positionSec + max(0, nowMs - hostTsMs)/1000` when
`playing`, else `positionSec` (spec section 4.5; also documented in
`docs/websocket-events.md` and the README).  Stated from the spec's words to
compare against the implementation above. -/
def specEstimatedPosition (st : PlaybackState) (nowMs : Rat) : Rat :=
  if st.playing then st.positionSec + max 0 (nowMs - st.hostTsMs) / 1000
  else st.positionSec

/-- Modelled from the spec: the correction policy — hard seek when drift
exceeds 250 ms, otherwise converge by playback-rate adjustment. -/
inductive SpecCorrection where
  | hardSeek (target : Rat)
  | rateAdjust
deriving Repr, DecidableEq

/-- Modelled from the spec: `if |localPosition - estimatedPosition| > 250ms,
perform a hard seek to the estimated position; otherwise adjust local playback
rate`. -/
def specCorrection (localPos est : Rat) : SpecCorrection :=
  if 1/4 < |localPos - est| then SpecCorrection.hardSeek est
  else SpecCorrection.rateAdjust

/-! ## Server data model (apps/signaling/src/server.ts)

`type Conn = { ws, user?, roomId? }`, `type Room = { connsByUserId }` plus the
dynamically attached `_cleanupTimer`, and the module-level `rooms` map.  A
`ConnId` identifies the underlying WebSocket transport; the mutable `Conn`
record attached to it lives in `ServerState.conns`. -/

structure Conn where
  user : Option ClientInfo
  roomId : Option RoomId
deriving Repr, DecidableEq

structure Room where
  connsByUserId : List (UserId × ConnId)
  cleanupTimer : Option TimerId
deriving Repr, DecidableEq

/-- A scheduled `setTimeout` handle: the room-cleanup callback closes over
`room` (the room id) and fires at wall-clock time `expiry`. -/
structure Timer where
  id : TimerId
  room : RoomId
  expiry : Nat
deriving Repr, DecidableEq

/-- The whole server process state.  `closedEvts` is bookkeeping for the
event-trace semantics: transports whose `close` event has already been
delivered (no further events may come from them). -/
structure ServerState where
  rooms : List (RoomId × Room)
  conns : List (ConnId × Conn)
  timers : List Timer
  nextTimerId : TimerId
  closedEvts : List ConnId
deriving Repr, DecidableEq

def initState : ServerState :=
  { rooms := [], conns := [], timers := [], nextTimerId := 0, closedEvts := [] }

/-- `ROOM_TTL_MS = 5 * 60 * 1000`, the grace period before an empty room is
cleaned up. -/
def ROOM_TTL_MS : Nat := 5 * 60 * 1000

/-- Server-to-client envelopes (`S2C` in packages/shared). Payload fields that
no claim depends on (e.g. `meta`) are omitted; opaque payloads (SDP blobs,
presence patches) are plain strings, ICE candidates plain numbers. -/
inductive S2C where
  | serverHello (v : Nat) (nowMs : Nat)
  | roomJoined (roomId : RoomId) (you : ClientInfo) (peers : List ClientInfo)
  | peerJoined (roomId : RoomId) (peer : ClientInfo)
  | peerLeft (roomId : RoomId) (userId : UserId)
  | chatMessage (roomId : RoomId) (sender : ClientInfo) (text : String) (tsMs : Nat)
  | watchContent (roomId : RoomId) (contentId : String)
  | watchPlayback (roomId : RoomId) (state : PlaybackState) (serverTsMs : Nat) (fromUserId : UserId)
  | webrtcOffer (roomId : RoomId) (fromUserId : UserId) (sdp : String)
  | webrtcAnswer (roomId : RoomId) (fromUserId : UserId) (sdp : String)
  | webrtcIce (roomId : RoomId) (fromUserId : UserId) (candidate : Nat)
  | userUpdated (roomId : RoomId) (userId : UserId) (state : String)
  | reactionReceived (roomId : RoomId) (userId : UserId) (displayName : String)
      (reaction : String) (source : String) (tsMs : Nat)
  | ack (requestId : String)
  | error (requestId : Option String) (code : String) (message : String)
deriving Repr, DecidableEq

/-- Client-to-server envelope bodies (`C2S` in packages/shared); the optional
`requestId` of the envelope is threaded separately. -/
inductive C2S where
  | roomJoin (roomId : RoomId) (client : ClientInfo)
  | roomLeave (roomId : RoomId)
  | chatSend (roomId : RoomId) (text : String)
  | watchSetContent (roomId : RoomId) (contentId : String)
  | watchPlayback (roomId : RoomId) (state : PlaybackState)
  | webrtcOffer (roomId : RoomId) (toUserId : UserId) (sdp : String)
  | webrtcAnswer (roomId : RoomId) (toUserId : UserId) (sdp : String)
  | webrtcIce (roomId : RoomId) (toUserId : UserId) (candidate : Nat)
  | userUpdate (roomId : RoomId) (state : String)
  | reactionSend (roomId : RoomId) (reaction : String) (source : String)
deriving Repr, DecidableEq

/-- The externally visible primitive operations a handler performs, in program
order: `send(conn.ws, msg)`, `ws.close(code, reason)`, and the moment
`room.connsByUserId.set(userId, conn)` registers a connection as the current
binding (recorded so that ordering claims about registration can be stated). -/
inductive Effect where
  | send (dest : ConnId) (msg : S2C)
  | closeWs (target : ConnId) (code : Nat) (reason : String)
  | register (roomId : RoomId) (userId : UserId) (c : ConnId)
deriving Repr, DecidableEq

/-- `broadcast(roomId, msg, exceptUserId?)`: send to every connection in the
room's map, in map order, skipping `exceptUserId` when given. -/
def broadcastEffs (st : ServerState) (roomId : RoomId) (msg : S2C)
    (exceptUserId : Option UserId) : List Effect :=
  match alGet st.rooms roomId with
  | none => []
  | some room =>
    match exceptUserId with
    | none => room.connsByUserId.map fun p => Effect.send p.2 msg
    | some x =>
      (room.connsByUserId.filter fun p => !decide (p.1 = x)).map fun p => Effect.send p.2 msg

/-- `function leaveRoom(conn, roomId)`: remove the connection's user from the
room's map, broadcast `room/peer_left`, and if the room is now empty schedule
the cleanup timer (overwriting `_cleanupTimer` without cancelling any timer it
previously pointed to); finally clear `conn.roomId`. -/
def leaveRoomFn (st : ServerState) (c : ConnId) (roomId : RoomId) (now : Nat) :
    ServerState × List Effect :=
  match alGet st.conns c with
  | none => (st, [])
  | some conn =>
    match alGet st.rooms roomId, conn.user with
    | some room, some user =>
      let room1 : Room := { room with connsByUserId := alDel room.connsByUserId user.userId }
      let st1 : ServerState := { st with rooms := alSet st.rooms roomId room1 }
      let effs := broadcastEffs st1 roomId (S2C.peerLeft roomId user.userId) none
      let st2 : ServerState :=
        if room1.connsByUserId.length = 0 then
          let tid := st1.nextTimerId
          let room2 : Room := { room1 with cleanupTimer := some tid }
          { st1 with rooms := alSet st1.rooms roomId room2,
                     timers := st1.timers ++ [⟨tid, roomId, now + ROOM_TTL_MS⟩],
                     nextTimerId := tid + 1 }
        else st1
      let st3 : ServerState :=
        { st2 with conns := alSet st2.conns c { conn with roomId := none } }
      (st3, effs)
    | _, _ => (st, [])

/-- The room-cleanup `setTimeout` callback firing: the timer leaves the
scheduled set and the room is deleted if it still exists and is still empty
(the callback does not check that `_cleanupTimer` still names this timer). -/
def fireTimer (st : ServerState) (t : TimerId) : ServerState :=
  match st.timers.find? (fun tm => tm.id == t) with
  | none => st
  | some tm =>
    let st1 : ServerState := { st with timers := st.timers.filter fun x => x.id != t }
    match alGet st1.rooms tm.room with
    | some room =>
      if room.connsByUserId.length = 0 then
        { st1 with rooms := alDel st1.rooms tm.room }
      else st1
    | none => st1

/-- The `room/join` case: auto-create the room, cancel its pending cleanup
timer, close a prior connection bound to the same identity (only when it is a
different transport), bind and register this connection, reply `room/joined`
with the other members, and broadcast `room/peer_joined` to everyone else. -/
def joinCore (st : ServerState) (c : ConnId) (conn : Conn) (roomId : RoomId)
    (client : ClientInfo) : ServerState × List Effect :=
  -- Auto-create room if it doesn't exist
  let createRes : ServerState × Room :=
    match alGet st.rooms roomId with
    | some room => (st, room)
    | none =>
      let r : Room := { connsByUserId := [], cleanupTimer := none }
      ({ st with rooms := alSet st.rooms roomId r }, r)
  let st1 := createRes.1
  let room := createRes.2
  -- Cancel any pending cleanup timer
  let cancelRes : ServerState × Room :=
    match room.cleanupTimer with
    | some t =>
      let r2 : Room := { room with cleanupTimer := none }
      ({ st1 with rooms := alSet st1.rooms roomId r2,
                  timers := st1.timers.filter fun tm => tm.id != t }, r2)
    | none => (st1, room)
  let st2 := cancelRes.1
  let room2 := cancelRes.2
  -- If reconnecting / duplicate, close previous
  let closeEffs : List Effect :=
    match alGet room2.connsByUserId client.userId with
    | some ec => if ec ≠ c then [Effect.closeWs ec 4000 "Replaced by new connection"] else []
    | none => []
  -- conn.user = client; conn.roomId = roomId; room.connsByUserId.set(...)
  let conn2 : Conn := { user := some client, roomId := some roomId }
  let room3 : Room := { room2 with connsByUserId := alSet room2.connsByUserId client.userId c }
  let st3 : ServerState :=
    { st2 with conns := alSet st2.conns c conn2,
               rooms := alSet st2.rooms roomId room3 }
  -- peers: every other member whose conn record carries a user
  let peers : List ClientInfo := room3.connsByUserId.filterMap fun p =>
    if p.1 = client.userId then none
    else (alGet st3.conns p.2).bind fun cn => cn.user
  (st3,
    closeEffs ++
    [Effect.register roomId client.userId c,
     Effect.send c (S2C.roomJoined roomId client peers)] ++
    broadcastEffs st3 roomId (S2C.peerJoined roomId client) (some client.userId))

/-- The shared guard of every room-scoped handler other than join and leave:
`if (!conn.user || !conn.roomId) → not_in_room "Join a room first"`, then
`if (roomId !== conn.roomId) → not_in_room "Not in that room"`. -/
def requireJoined (st : ServerState) (conn : Conn) (c : ConnId) (rid : Option String)
    (roomId : RoomId) (k : ClientInfo → ServerState × List Effect) :
    ServerState × List Effect :=
  match conn.user, conn.roomId with
  | some u, some r =>
    if roomId = r then k u
    else (st, [Effect.send c (S2C.error rid "not_in_room" "Not in that room")])
  | _, _ => (st, [Effect.send c (S2C.error rid "not_in_room" "Join a room first")])

/-- The optional-ack pattern: `if (requestId) send(ws, ackMsg(requestId))`. -/
def ackEffects (rid : Option String) (c : ConnId) : List Effect :=
  match rid with
  | some r => [Effect.send c (S2C.ack r)]
  | none => []

/-- One inbound message on an established connection: the optional-`requestId`
ack, then the `switch (msg.type)` dispatch.  `now` is `Date.now()` during this
callback. -/
def handleMessage (st : ServerState) (c : ConnId) (rid : Option String) (m : C2S)
    (now : Nat) : ServerState × List Effect :=
  match alGet st.conns c with
  | none => (st, [])
  | some conn =>
    let core : ServerState × List Effect :=
      match m with
      | .roomJoin roomId client => joinCore st c conn roomId client
      | .roomLeave roomId =>
        match conn.user with
        | none => (st, [Effect.send c (S2C.error rid "unauthorized" "Not joined")])
        | some _ => leaveRoomFn st c roomId now
      | .chatSend roomId text =>
        requireJoined st conn c rid roomId fun u =>
          (st, broadcastEffs st roomId (S2C.chatMessage roomId u text now) none)
      | .watchSetContent roomId contentId =>
        requireJoined st conn c rid roomId fun _ =>
          (st, broadcastEffs st roomId (S2C.watchContent roomId contentId) none)
      | .watchPlayback roomId pst =>
        requireJoined st conn c rid roomId fun u =>
          (st, broadcastEffs st roomId (S2C.watchPlayback roomId pst now u.userId) none)
      | .webrtcOffer roomId toUserId sdp =>
        requireJoined st conn c rid roomId fun u =>
          match (alGet st.rooms roomId).bind fun room => alGet room.connsByUserId toUserId with
          | none => (st, [Effect.send c (S2C.error rid "peer_not_found" "Peer not found")])
          | some toC => (st, [Effect.send toC (S2C.webrtcOffer roomId u.userId sdp)])
      | .webrtcAnswer roomId toUserId sdp =>
        requireJoined st conn c rid roomId fun u =>
          match (alGet st.rooms roomId).bind fun room => alGet room.connsByUserId toUserId with
          | none => (st, [Effect.send c (S2C.error rid "peer_not_found" "Peer not found")])
          | some toC => (st, [Effect.send toC (S2C.webrtcAnswer roomId u.userId sdp)])
      | .webrtcIce roomId toUserId candidate =>
        requireJoined st conn c rid roomId fun u =>
          match (alGet st.rooms roomId).bind fun room => alGet room.connsByUserId toUserId with
          | none => (st, [Effect.send c (S2C.error rid "peer_not_found" "Peer not found")])
          | some toC => (st, [Effect.send toC (S2C.webrtcIce roomId u.userId candidate)])
      | .userUpdate roomId stData =>
        requireJoined st conn c rid roomId fun u =>
          (st, broadcastEffs st roomId (S2C.userUpdated roomId u.userId stData) (some u.userId))
      | .reactionSend roomId reaction source =>
        requireJoined st conn c rid roomId fun u =>
          (st, broadcastEffs st roomId
            (S2C.reactionReceived roomId u.userId u.displayName reaction source now) none)
    (core.1, ackEffects rid c ++ core.2)

/-- Events the server process reacts to, each handled atomically. -/
inductive SEvent where
  /-- `wss.on("connection")`: a fresh transport. -/
  | connect (c : ConnId)
  /-- `ws.on("message")` with a well-formed envelope. -/
  | message (c : ConnId) (rid : Option String) (m : C2S)
  /-- `ws.on("close")`. -/
  | closeEvt (c : ConnId)
  /-- A scheduled `setTimeout` callback firing. -/
  | timerFire (t : TimerId)
deriving Repr, DecidableEq

/-- An event stamped with the wall-clock time at which it is handled. -/
structure TEvent where
  time : Nat
  ev : SEvent
deriving Repr, DecidableEq

def stepEv (st : ServerState) (e : TEvent) : ServerState × List Effect :=
  match e.ev with
  | .connect c =>
    ({ st with conns := alSet st.conns c { user := none, roomId := none } },
     [Effect.send c (S2C.serverHello WS_VERSION e.time)])
  | .message c rid m => handleMessage st c rid m e.time
  | .closeEvt c =>
    let st0 : ServerState := { st with closedEvts := st.closedEvts ++ [c] }
    match alGet st0.conns c with
    | some conn =>
      match conn.user, conn.roomId with
      | some _, some r => leaveRoomFn st0 c r e.time
      | _, _ => (st0, [])
    | none => (st0, [])
  | .timerFire t => (fireTimer st t, [])

def runTrace (st : ServerState) : List TEvent → ServerState
  | [] => st
  | e :: rest => runTrace (stepEv st e).1 rest

/-- All effects of a trace, concatenated in order. -/
def traceEffs (st : ServerState) : List TEvent → List Effect
  | [] => []
  | e :: rest => (stepEv st e).2 ++ traceEffs (stepEv st e).1 rest

/-- The event-independent admissibility check for the next event: transports
connect once, send messages and close only while connected and before their
close event, and a timer callback fires exactly at its scheduled expiry. -/
def evGuard (st : ServerState) (e : TEvent) : Bool :=
  match e.ev with
  | .connect c => (alGet st.conns c).isNone
  | .message c _ _ => (alGet st.conns c).isSome && !(st.closedEvts.contains c)
  | .closeEvt c => (alGet st.conns c).isSome && !(st.closedEvts.contains c)
  | .timerFire t => st.timers.any fun tm => tm.id == t && tm.expiry == e.time

/-- Trace admissibility: wall-clock times are nondecreasing, no event is
handled while an already-expired timer is still pending (its callback would
have run first), and every event passes `evGuard`. -/
def validFrom (st : ServerState) (last : Nat) : List TEvent → Bool
  | [] => true
  | e :: rest =>
    decide (last ≤ e.time) &&
    (st.timers.all fun tm => e.time ≤ tm.expiry) &&
    evGuard st e &&
    validFrom (stepEv st e).1 e.time rest

def validTrace (tr : List TEvent) : Bool := validFrom initState 0 tr

/-- The per-peer synchronization invariant maintained by the client: the
remote description lives on an existing peer connection, the pending buffer is
empty whenever candidates may be applied directly, and no candidate was ever
applied without a remote description. -/
def PeerInv (s : PeerSt) : Prop :=
  (s.remoteDesc = true → s.hasPc = true) ∧
  (s.hasPc = true → s.remoteDesc = true → s.pending = []) ∧
  s.badApply = false

/-! ## Concrete scenario traces -/

def uAlice : ClientInfo := ⟨"u", "A"⟩

def vBob : ClientInfo := ⟨"v", "B"⟩

/-- User "u" joins room "r" on transport 1, rejoins on transport 2 (the server
closes transport 1 with code 4000), then transport 1's close event is
delivered. -/
def replacedCloseTrace : List TEvent :=
  [⟨0, .connect 1⟩,
   ⟨1, .message 1 none (.roomJoin "r" uAlice)⟩,
   ⟨2, .connect 2⟩,
   ⟨3, .message 2 none (.roomJoin "r" uAlice)⟩,
   ⟨4, .closeEvt 1⟩]

/-- User "u" joins on transport 1 and is replaced by transport 2; transport 2
leaves (cleanup timer 0 scheduled for 300004); the stale close of transport 1
runs the leave path again and overwrites `_cleanupTimer` with timer 1, losing
the handle of timer 0; user "v" joins at 100000 (cancelling only timer 1) and
leaves at 200000 (scheduling timer 2 for 500000); timer 0 fires at 300004. -/
def lostTimerTrace : List TEvent :=
  [⟨0, .connect 1⟩,
   ⟨1, .message 1 none (.roomJoin "r" uAlice)⟩,
   ⟨2, .connect 2⟩,
   ⟨3, .message 2 none (.roomJoin "r" uAlice)⟩,
   ⟨4, .message 2 none (.roomLeave "r")⟩,
   ⟨5, .closeEvt 1⟩,
   ⟨6, .connect 3⟩,
   ⟨100000, .message 3 none (.roomJoin "r" vBob)⟩,
   ⟨200000, .message 3 none (.roomLeave "r")⟩,
   ⟨300004, .timerFire 0⟩]

/-- A connection that never joined any room sends `room/leave`. -/
def leaveUnjoinedTrace : List TEvent :=
  [⟨0, .connect 1⟩, ⟨1, .message 1 none (.roomLeave "r")⟩]

/-! ## C4, C5, C10: the join handler -/

def isCloseEffect : Effect → Bool
  | .closeWs _ _ _ => true
  | _ => false

/-- A state with a fresh transport 1 and user "u" bound to transport 2 in
room "r". -/
def wStPrior : ServerState :=
  { rooms := [("r", { connsByUserId := [("u", 2)], cleanupTimer := none })],
    conns := [(1, { user := none, roomId := none }),
              (2, { user := some uAlice, roomId := some "r" })],
    timers := [], nextTimerId := 0, closedEvts := [] }

/-- A state whose only connection is the fresh transport 1; no rooms exist. -/
def wStFresh : ServerState :=
  { rooms := [], conns := [(1, { user := none, roomId := none })],
    timers := [], nextTimerId := 0, closedEvts := [] }

/-- A state where user "u" is bound in room "r" on transport 1. -/
def wStSame : ServerState :=
  { rooms := [("r", { connsByUserId := [("u", 1)], cleanupTimer := none })],
    conns := [(1, { user := some uAlice, roomId := some "r" })],
    timers := [], nextTimerId := 0, closedEvts := [] }

/-- A state whose only connection, transport 1, has never joined a room. -/
def wStUnjoined : ServerState :=
  { rooms := [], conns := [(1, { user := none, roomId := none })],
    timers := [], nextTimerId := 0, closedEvts := [] }

/-! ## C9: broadcast recipient sets -/

/-- The wire `type` tag of a server-to-client envelope. -/
inductive Tag where
  | serverHelloT | roomJoinedT | peerJoinedT | peerLeftT | chatMessageT | watchContentT
  | watchPlaybackT | webrtcOfferT | webrtcAnswerT | webrtcIceT | userUpdatedT
  | reactionReceivedT | ackT | errorT
deriving Repr, DecidableEq

def msgTag : S2C → Tag
  | .serverHello _ _ => .serverHelloT
  | .roomJoined _ _ _ => .roomJoinedT
  | .peerJoined _ _ => .peerJoinedT
  | .peerLeft _ _ => .peerLeftT
  | .chatMessage _ _ _ _ => .chatMessageT
  | .watchContent _ _ => .watchContentT
  | .watchPlayback _ _ _ _ => .watchPlaybackT
  | .webrtcOffer _ _ _ => .webrtcOfferT
  | .webrtcAnswer _ _ _ => .webrtcAnswerT
  | .webrtcIce _ _ _ => .webrtcIceT
  | .userUpdated _ _ _ => .userUpdatedT
  | .reactionReceived _ _ _ _ _ _ => .reactionReceivedT
  | .ack _ => .ackT
  | .error _ _ _ => .errorT

/-- The transports that a list of effects sends a message of tag `t` to, in
order. -/
def sendTargets (effs : List Effect) (t : Tag) : List ConnId :=
  effs.filterMap fun e => match e with
    | Effect.send d m => if msgTag m = t then some d else none
    | _ => none

/-- A room "r" holding users "u" (transport 1) and "w" (transport 2), both
bound; the third identity joins later in the witness. -/
def wStRoom : ServerState :=
  { rooms := [("r", { connsByUserId := [("u", 1), ("w", 2)], cleanupTimer := none })],
    conns := [(1, { user := some uAlice, roomId := some "r" }),
              (2, { user := some ⟨"w", "C"⟩, roomId := some "r" })],
    timers := [], nextTimerId := 0, closedEvts := [] }

def isHelloEffect : Effect → Bool
  | .send _ (S2C.serverHello _ _) => true
  | _ => false

/-- A transport connects at time 3 and sends `room/leave` at time 7. -/
def c8WitnessTrace : List TEvent :=
  [⟨3, .connect 1⟩, ⟨7, .message 1 none (.roomLeave "r")⟩]

@[simp]
theorem alGet_alSet_self {α β : Type} [DecidableEq α] (l : List (α × β)) (k : α) (v : β) :
    alGet (alSet l k v) k = some v := by
  induction l with
  | nil => simp [alGet, alSet]
  | cons hd tl ih =>
    obtain ⟨k', v'⟩ := hd
    by_cases h : k' = k <;> simp [alGet, alSet, h, ih]

theorem alGet_alSet_ne {α β : Type} [DecidableEq α] (l : List (α × β)) (k k' : α) (v : β)
    (h : k' ≠ k) : alGet (alSet l k v) k' = alGet l k' := by
  have h' : ¬k = k' := fun hh => h hh.symm
  induction l with
  | nil => simp [alGet, alSet, h']
  | cons hd tl ih =>
    obtain ⟨k₀, v₀⟩ := hd
    by_cases h₀ : k₀ = k
    · subst h₀
      simp [alGet, alSet, h, h']
    · by_cases h₁ : k₀ = k' <;> simp [alGet, alSet, h₀, h₁, h, h', ih]

/-! ## C1: ICE candidate buffering -/

theorem foldl_applyCand_applied (l : List Nat) (s : PeerSt) :
    (l.foldl applyCand s).applied = s.applied ++ l := by
  induction l generalizing s with
  | nil => simp
  | cons c l ih => simp [ih, applyCand]

theorem foldl_applyCand_pending (l : List Nat) (s : PeerSt) :
    (l.foldl applyCand s).pending = s.pending := by
  induction l generalizing s with
  | nil => rfl
  | cons c l ih => simp [ih, applyCand]

theorem foldl_applyCand_hasPc (l : List Nat) (s : PeerSt) :
    (l.foldl applyCand s).hasPc = s.hasPc := by
  induction l generalizing s with
  | nil => rfl
  | cons c l ih => simp [ih, applyCand]

theorem foldl_applyCand_remoteDesc (l : List Nat) (s : PeerSt) :
    (l.foldl applyCand s).remoteDesc = s.remoteDesc := by
  induction l generalizing s with
  | nil => rfl
  | cons c l ih => simp [ih, applyCand]

theorem foldl_applyCand_badApply (l : List Nat) (s : PeerSt) (h : s.remoteDesc = true) :
    (l.foldl applyCand s).badApply = s.badApply := by
  induction l generalizing s with
  | nil => rfl
  | cons c l ih => simp [applyCand, h, ih, applyCand, h]

theorem flushPending_applied (s : PeerSt) :
    (flushPending s).applied = s.applied ++ s.pending := by
  simp [flushPending, foldl_applyCand_applied]

theorem flushPending_pending (s : PeerSt) : (flushPending s).pending = [] := rfl

theorem flushPending_hasPc (s : PeerSt) : (flushPending s).hasPc = s.hasPc := by
  simp [flushPending, foldl_applyCand_hasPc]

theorem flushPending_remoteDesc (s : PeerSt) :
    (flushPending s).remoteDesc = s.remoteDesc := by
  simp [flushPending, foldl_applyCand_remoteDesc]

theorem flushPending_badApply (s : PeerSt) (h : s.remoteDesc = true) :
    (flushPending s).badApply = s.badApply := by
  simp [flushPending, foldl_applyCand_badApply _ _ h]

theorem stepPeer_inv (s : PeerSt) (e : PeerEv) (h : PeerInv s) : PeerInv (stepPeer s e) := by
  obtain ⟨h1, h2, h3⟩ := h
  cases e with
  | iceArrived c =>
    cases hpc : s.hasPc <;> cases hrd : s.remoteDesc
    · refine ⟨?_, ?_, ?_⟩ <;> simp [stepPeer, hpc, hrd, h3]
    · exact absurd (h1 hrd) (by simp [hpc])
    · refine ⟨?_, ?_, ?_⟩ <;> simp [stepPeer, hpc, hrd, h3]
    · have hp : s.pending = [] := h2 hpc hrd
      refine ⟨?_, ?_, ?_⟩ <;> simp [stepPeer, hpc, hrd, applyCand, h3, hp]
  | offerReceived =>
    cases hpc : s.hasPc <;>
      exact ⟨fun _ => by simp [stepPeer, hpc, flushPending_hasPc],
             fun _ _ => by simp [stepPeer, hpc, flushPending_pending],
             by simp [stepPeer, hpc, flushPending_badApply, h3]⟩
  | answerReceived =>
    cases hpc : s.hasPc
    · exact ⟨by simpa [stepPeer, hpc] using h1, by simpa [stepPeer, hpc] using h2,
             by simpa [stepPeer, hpc] using h3⟩
    · exact ⟨fun _ => by simp [stepPeer, hpc, flushPending_hasPc],
             fun _ _ => by simp [stepPeer, hpc, flushPending_pending],
             by simp [stepPeer, hpc, flushPending_badApply, h3]⟩
  | pcCreated =>
    exact ⟨fun hh => by simp [stepPeer] at hh, fun _ hh => by simp [stepPeer] at hh,
           by simpa [stepPeer] using h3⟩

theorem foldPeer_inv (evs : List PeerEv) (s : PeerSt) (h : PeerInv s) :
    PeerInv (evs.foldl stepPeer s) := by
  induction evs generalizing s with
  | nil => exact h
  | cons e evs ih => exact ih _ (stepPeer_inv s e h)

theorem stepPeer_order (s : PeerSt) (e : PeerEv) (h : PeerInv s) :
    (stepPeer s e).applied ++ (stepPeer s e).pending =
      s.applied ++ s.pending ++ arrivedCands [e] := by
  obtain ⟨h1, h2, h3⟩ := h
  cases e with
  | iceArrived c =>
    cases hpc : s.hasPc <;> cases hrd : s.remoteDesc
    · simp [stepPeer, hpc, hrd, applyCand, arrivedCands]
    · simp [stepPeer, hpc, hrd, applyCand, arrivedCands]
    · simp [stepPeer, hpc, hrd, applyCand, arrivedCands]
    · have hp : s.pending = [] := h2 hpc hrd
      simp [stepPeer, hpc, hrd, applyCand, arrivedCands, hp]
  | offerReceived =>
    cases hpc : s.hasPc <;>
      simp [stepPeer, hpc, flushPending_applied, flushPending_pending, arrivedCands]
  | answerReceived =>
    cases hpc : s.hasPc <;>
      simp [stepPeer, hpc, flushPending_applied, flushPending_pending, arrivedCands]
  | pcCreated => simp [stepPeer, arrivedCands]

theorem foldPeer_order (evs : List PeerEv) (s : PeerSt) (h : PeerInv s) :
    (evs.foldl stepPeer s).applied ++ (evs.foldl stepPeer s).pending =
      s.applied ++ s.pending ++ arrivedCands evs := by
  induction evs generalizing s with
  | nil => simp [arrivedCands]
  | cons e evs ih =>
    have hstep := stepPeer_order s e h
    have harr : arrivedCands (e :: evs) = arrivedCands [e] ++ arrivedCands evs := by
      cases e <;> simp [arrivedCands]
    calc (List.foldl stepPeer (stepPeer s e) evs).applied ++
          (List.foldl stepPeer (stepPeer s e) evs).pending
        = (stepPeer s e).applied ++ (stepPeer s e).pending ++ arrivedCands evs :=
          ih _ (stepPeer_inv s e h)
      _ = s.applied ++ s.pending ++ arrivedCands [e] ++ arrivedCands evs := by rw [hstep]
      _ = s.applied ++ s.pending ++ arrivedCands (e :: evs) := by
          rw [harr]; simp [List.append_assoc]

theorem initPeer_inv : PeerInv initPeer := by
  refine ⟨?_, ?_, rfl⟩ <;> simp [initPeer]

/-- C1: an incoming ICE candidate is handed to the peer connection immediately
exactly when the peer connection exists and its remote description is set, and
is appended to the peer's pending queue otherwise; after an offer is received
(and after an answer is received while a peer connection exists) the pending
queue is flushed to the connection in FIFO order and emptied; and along every
event sequence no candidate is ever applied without a remote description and
the candidates that arrived are exactly the applied ones followed by the
still-pending ones, in arrival order. -/
theorem c1_candidate_buffering :
    (∀ (s : PeerSt) (c : Nat),
      ((stepPeer s (PeerEv.iceArrived c)).applied = s.applied ++ [c] ↔
        (s.hasPc && s.remoteDesc) = true) ∧
      ((stepPeer s (PeerEv.iceArrived c)).pending = s.pending ++ [c] ↔
        (s.hasPc && s.remoteDesc) = false)) ∧
    (∀ s : PeerSt,
      (stepPeer s PeerEv.offerReceived).pending = [] ∧
      (stepPeer s PeerEv.offerReceived).applied = s.applied ++ s.pending) ∧
    (∀ s : PeerSt, s.hasPc = true →
      (stepPeer s PeerEv.answerReceived).pending = [] ∧
      (stepPeer s PeerEv.answerReceived).applied = s.applied ++ s.pending) ∧
    (∀ evs : List PeerEv,
      (runPeer evs).badApply = false ∧
      arrivedCands evs = (runPeer evs).applied ++ (runPeer evs).pending) := by
  refine ⟨?_, ?_, ?_, ?_⟩
  · intro s c
    constructor
    · constructor
      · intro hap
        cases hpc : s.hasPc <;> cases hrd : s.remoteDesc <;>
          simp [stepPeer, hpc, hrd, applyCand] at hap ⊢
      · intro hg
        simp [stepPeer, hg, applyCand]
    · constructor
      · intro hap
        cases hpc : s.hasPc <;> cases hrd : s.remoteDesc <;>
          simp [stepPeer, hpc, hrd, applyCand] at hap ⊢
      · intro hg
        simp [stepPeer, hg]
  · intro s
    cases hpc : s.hasPc <;>
      exact ⟨by simp [stepPeer, hpc, flushPending_pending],
             by simp [stepPeer, hpc, flushPending_applied]⟩
  · intro s hpc
    exact ⟨by simp [stepPeer, hpc, flushPending_pending],
           by simp [stepPeer, hpc, flushPending_applied]⟩
  · intro evs
    refine ⟨(foldPeer_inv evs initPeer initPeer_inv).2.2, ?_⟩
    have := foldPeer_order evs initPeer initPeer_inv
    simpa [runPeer, initPeer] using this.symm

/-- Witness for the hypothesis-bearing part of C1 at a concrete state: a peer
connection exists with two buffered candidates; receiving the answer flushes
both in order and empties the queue. -/
theorem c1_candidate_buffering_witness :
    (stepPeer ⟨true, false, [1], [2, 3], false⟩ PeerEv.answerReceived).pending = [] ∧
    (stepPeer ⟨true, false, [1], [2, 3], false⟩ PeerEv.answerReceived).applied =
      (⟨true, false, [1], [2, 3], false⟩ : PeerSt).applied ++
      (⟨true, false, [1], [2, 3], false⟩ : PeerSt).pending :=
  c1_candidate_buffering.2.2.1 ⟨true, false, [1], [2, 3], false⟩ rfl

/-! ## C3: playback drift handling -/

/-- C3: at the documented drift example (snapshot `positionSec = 10` taken at
host time `hostTsMs = 0`, received when `nowMs = 5000`, local position 10 s)
the specified algorithm estimates position 15 s and demands a hard seek there,
but the implementation stores the raw `positionSec` (10 s) as its target and
its sync effect performs no seek at all (the 5 s drift from the specified
target is invisible to it, and no playback-rate adjustment exists), so the
specified behaviour is absent from the code. -/
theorem c3_drift_correction_divergence :
    specEstimatedPosition ⟨true, 10, 0⟩ 5000 = 15 ∧
    specCorrection 10 (specEstimatedPosition ⟨true, 10, 0⟩ 5000) =
      SpecCorrection.hardSeek 15 ∧
    onPlaybackStateMsg ⟨true, 10, 0⟩ = ⟨true, 10⟩ ∧
    videoPlayerSyncSeek 10 (onPlaybackStateMsg ⟨true, 10, 0⟩).currentTime 0 =
      SyncAction.noSeek := by
  have hest : specEstimatedPosition ⟨true, 10, 0⟩ 5000 = 15 := by
    norm_num [specEstimatedPosition]
  refine ⟨hest, ?_, rfl, ?_⟩
  · rw [hest]
    norm_num [specCorrection, abs_sub_comm]
  · norm_num [videoPlayerSyncSeek, onPlaybackStateMsg]

/-- C2: the room-membership invariant fails on the code.  After user "u" is
replaced onto transport 2 and the replaced transport 1's close event is
processed, the room map no longer contains "u" even though transport 2 is
still live (its close event never occurred), joined, and bound to room "r":
the close-path leave deletes the identity's map entry without checking that
the entry still belongs to the closing connection. -/
theorem c2_member_map_divergence :
    validTrace replacedCloseTrace = true ∧
    (alGet (runTrace initState replacedCloseTrace).rooms "r").map Room.connsByUserId =
      some [] ∧
    alGet (runTrace initState replacedCloseTrace).conns 2 =
      some { user := some uAlice, roomId := some "r" } ∧
    (runTrace initState replacedCloseTrace).closedEvts = [1] := by
  decide

/-- C6: the grace-period guarantee fails on the code.  Along the admissible
trace above, room "r" is deleted when timer 0 fires at time 300004, although
user "v" joined the room inside that timer's window (the room is nonempty
after the 8th event, at time 100000) and the room had been empty only since
time 200000 — an emptiness stretch of 100004 ms, far less than the 300000 ms
grace period; the join failed to cancel timer 0 because its handle had been
overwritten by the stale close-path leave. -/
theorem c6_grace_period_divergence :
    validTrace lostTimerTrace = true ∧
    alGet (runTrace initState lostTimerTrace).rooms "r" = none ∧
    (alGet (runTrace initState (lostTimerTrace.take 8)).rooms "r").map Room.connsByUserId =
      some [("v", 3)] ∧
    (alGet (runTrace initState (lostTimerTrace.take 9)).rooms "r").map Room.connsByUserId =
      some [] ∧
    (lostTimerTrace.get? 7).map TEvent.time = some 100000 ∧
    (lostTimerTrace.get? 8).map TEvent.time = some 200000 ∧
    (lostTimerTrace.get? 9).map TEvent.time = some 300004 ∧
    300004 - 200000 < ROOM_TTL_MS := by
  decide

/-- Counterexample to C7 as stated: a connection that is not in the Joined
state sends `room/leave`, and the server answers with error code
`unauthorized` — not `not_in_room` — because the `room/leave` handler checks
only `conn.user` and never compares the request's room identifier with the
bound room. -/
theorem c7_room_leave_counterexample :
    validTrace leaveUnjoinedTrace = true ∧
    traceEffs initState leaveUnjoinedTrace =
      [Effect.send 1 (S2C.serverHello 1 0),
       Effect.send 1 (S2C.error none "unauthorized" "Not joined")] ∧
    ("unauthorized" : String) ≠ "not_in_room" := by
  decide

theorem broadcastEffs_mem (st : ServerState) (roomId : RoomId) (msg : S2C)
    (ex : Option UserId) (e : Effect) (he : e ∈ broadcastEffs st roomId msg ex) :
    ∃ d, e = Effect.send d msg := by
  unfold broadcastEffs at he
  cases hr : alGet st.rooms roomId with
  | none => simp [hr] at he
  | some room =>
    cases ex with
    | none =>
      simp [hr] at he
      obtain ⟨p, w, hh⟩ := he
      exact ⟨w, hh.2.symm⟩
    | some x =>
      simp [hr] at he
      obtain ⟨p, w, hh⟩ := he
      exact ⟨w, hh.2.symm⟩

theorem ackEffects_mem (rid : Option String) (c : ConnId) (e : Effect)
    (he : e ∈ ackEffects rid c) : ∃ r, e = Effect.send c (S2C.ack r) := by
  cases rid with
  | none => simp [ackEffects] at he
  | some r =>
    simp [ackEffects] at he
    exact ⟨r, he⟩

/-- C4: when a `room/join` names an identity already bound in the room to a
connection on a different transport, the effect sequence of the handler closes
that prior transport with code 4000 ("replaced") at a position strictly before
the position at which the new connection is registered as the current binding,
and no registration occurs before that point. -/
theorem c4_close_before_register (st : ServerState) (c ec : ConnId) (conn : Conn)
    (rid : Option String) (roomId : RoomId) (client : ClientInfo) (room : Room) (now : Nat)
    (hc : alGet st.conns c = some conn)
    (hr : alGet st.rooms roomId = some room)
    (he : alGet room.connsByUserId client.userId = some ec)
    (hne : ec ≠ c) :
    ∃ i j, i < j ∧
      (handleMessage st c rid (C2S.roomJoin roomId client) now).2.get? i =
        some (Effect.closeWs ec 4000 "Replaced by new connection") ∧
      (handleMessage st c rid (C2S.roomJoin roomId client) now).2.get? j =
        some (Effect.register roomId client.userId c) ∧
      ∀ k < j, (handleMessage st c rid (C2S.roomJoin roomId client) now).2.get? k ≠
        some (Effect.register roomId client.userId c) := by
  cases hct : room.cleanupTimer with
  | none =>
    cases rid with
    | none =>
      simp [handleMessage, hc, joinCore, hr, hct, he, hne, ackEffects]
      refine ⟨0, 1, by norm_num, rfl, rfl, ?_⟩
      intro k hk
      interval_cases k
      simp
    | some r =>
      simp [handleMessage, hc, joinCore, hr, hct, he, hne, ackEffects]
      refine ⟨1, 2, by norm_num, rfl, rfl, ?_⟩
      intro k hk
      interval_cases k <;> simp
  | some t =>
    cases rid with
    | none =>
      simp [handleMessage, hc, joinCore, hr, hct, he, hne, ackEffects]
      refine ⟨0, 1, by norm_num, rfl, rfl, ?_⟩
      intro k hk
      interval_cases k
      simp
    | some r =>
      simp [handleMessage, hc, joinCore, hr, hct, he, hne, ackEffects]
      refine ⟨1, 2, by norm_num, rfl, rfl, ?_⟩
      intro k hk
      interval_cases k <;> simp

/-- Witness for C4: user "u" rejoins room "r" on transport 1 while bound to
transport 2; the close of transport 2 precedes the registration. -/
theorem c4_close_before_register_witness :
    ∃ i j, i < j ∧
      (handleMessage wStPrior 1 none (C2S.roomJoin "r" uAlice) 5).2.get? i =
        some (Effect.closeWs 2 4000 "Replaced by new connection") ∧
      (handleMessage wStPrior 1 none (C2S.roomJoin "r" uAlice) 5).2.get? j =
        some (Effect.register "r" uAlice.userId 1) ∧
      ∀ k < j, (handleMessage wStPrior 1 none (C2S.roomJoin "r" uAlice) 5).2.get? k ≠
        some (Effect.register "r" uAlice.userId 1) :=
  c4_close_before_register wStPrior 1 2 { user := none, roomId := none } none "r" uAlice
    { connsByUserId := [("u", 2)], cleanupTimer := none } 5
    (by decide) (by decide) (by decide) (by decide)

/-- C5: a `room/join` naming a room that does not exist creates the room
(holding exactly the joining connection, with no cleanup timer) and completes
normally: the handler's effects are the optional ack, the registration, and a
`room/joined` reply with the (empty) peer list — no error and no rejection. -/
theorem c5_join_autocreates_room (st : ServerState) (c : ConnId) (conn : Conn)
    (rid : Option String) (roomId : RoomId) (client : ClientInfo) (now : Nat)
    (hc : alGet st.conns c = some conn)
    (hr : alGet st.rooms roomId = none) :
    alGet (handleMessage st c rid (C2S.roomJoin roomId client) now).1.rooms roomId =
      some { connsByUserId := [(client.userId, c)], cleanupTimer := none } ∧
    (handleMessage st c rid (C2S.roomJoin roomId client) now).2 =
      ackEffects rid c ++
      [Effect.register roomId client.userId c,
       Effect.send c (S2C.roomJoined roomId client [])] := by
  simp [handleMessage, hc, joinCore, hr, broadcastEffs, alGet, alSet]

/-- Witness for C5: joining the nonexistent room "r" creates it and returns
`room/joined` with no peers. -/
theorem c5_join_autocreates_room_witness :
    alGet (handleMessage wStFresh 1 none (C2S.roomJoin "r" uAlice) 7).1.rooms "r" =
      some { connsByUserId := [(uAlice.userId, 1)], cleanupTimer := none } ∧
    (handleMessage wStFresh 1 none (C2S.roomJoin "r" uAlice) 7).2 =
      ackEffects none 1 ++
      [Effect.register "r" uAlice.userId 1,
       Effect.send 1 (S2C.roomJoined "r" uAlice [])] :=
  c5_join_autocreates_room wStFresh 1 { user := none, roomId := none } none "r" uAlice 7
    (by decide) (by decide)

/-- C10: a `room/join` from the transport that already holds the (room,
identity) binding issues no transport close at all (the replace close happens
only for a different transport), keeps the binding pointing at that same
connection, and still answers `room/joined` with the current peer list. -/
theorem c10_same_transport_rejoin (st : ServerState) (c : ConnId) (conn : Conn)
    (rid : Option String) (roomId : RoomId) (client : ClientInfo) (room : Room) (now : Nat)
    (hc : alGet st.conns c = some conn)
    (hr : alGet st.rooms roomId = some room)
    (he : alGet room.connsByUserId client.userId = some c) :
    ((handleMessage st c rid (C2S.roomJoin roomId client) now).2.all
      fun e => !isCloseEffect e) = true ∧
    (∃ room', alGet (handleMessage st c rid (C2S.roomJoin roomId client) now).1.rooms roomId =
        some room' ∧ alGet room'.connsByUserId client.userId = some c) ∧
    (∃ peers, Effect.send c (S2C.roomJoined roomId client peers) ∈
      (handleMessage st c rid (C2S.roomJoin roomId client) now).2) := by
  cases hct : room.cleanupTimer with
  | none =>
    refine ⟨?_,
      ⟨{ room with connsByUserId := alSet room.connsByUserId client.userId c }, ?_, ?_⟩, ?_⟩
    · rw [List.all_eq_true]
      intro e hemem
      simp [handleMessage, hc, joinCore, hr, hct, he] at hemem
      rcases hemem with h | h | h | h
      · obtain ⟨r, rfl⟩ := ackEffects_mem rid c e h
        rfl
      · subst h; rfl
      · subst h; rfl
      · obtain ⟨d, rfl⟩ := broadcastEffs_mem _ _ _ _ _ h
        rfl
    · simp [handleMessage, hc, joinCore, hr, hct, he]
    · simp
    · exact ⟨_, by
        simp [handleMessage, hc, joinCore, hr, hct, he]
        exact Or.inr (Or.inl rfl)⟩
  | some t =>
    refine ⟨?_,
      ⟨{ room with connsByUserId := alSet room.connsByUserId client.userId c,
                   cleanupTimer := none }, ?_, ?_⟩, ?_⟩
    · rw [List.all_eq_true]
      intro e hemem
      simp [handleMessage, hc, joinCore, hr, hct, he] at hemem
      rcases hemem with h | h | h | h
      · obtain ⟨r, rfl⟩ := ackEffects_mem rid c e h
        rfl
      · subst h; rfl
      · subst h; rfl
      · obtain ⟨d, rfl⟩ := broadcastEffs_mem _ _ _ _ _ h
        rfl
    · simp [handleMessage, hc, joinCore, hr, hct, he]
    · simp
    · exact ⟨_, by
        simp [handleMessage, hc, joinCore, hr, hct, he]
        exact Or.inr (Or.inl rfl)⟩

/-- Witness for C10: user "u" rejoins room "r" over its own transport 1; no
close is issued and `room/joined` is returned. -/
theorem c10_same_transport_rejoin_witness :
    ((handleMessage wStSame 1 none (C2S.roomJoin "r" uAlice) 9).2.all
      fun e => !isCloseEffect e) = true ∧
    (∃ room', alGet (handleMessage wStSame 1 none (C2S.roomJoin "r" uAlice) 9).1.rooms "r" =
        some room' ∧ alGet room'.connsByUserId uAlice.userId = some 1) ∧
    (∃ peers, Effect.send 1 (S2C.roomJoined "r" uAlice peers) ∈
      (handleMessage wStSame 1 none (C2S.roomJoin "r" uAlice) 9).2) :=
  c10_same_transport_rejoin wStSame 1 { user := some uAlice, roomId := some "r" } none
    "r" uAlice { connsByUserId := [("u", 1)], cleanupTimer := none } 9
    (by decide) (by decide) (by decide)

/-! ## C7: the room-scoped guard -/

theorem requireJoined_guard (st : ServerState) (conn : Conn) (c : ConnId)
    (rid : Option String) (roomId : RoomId)
    (hguard : conn.user = none ∨ conn.roomId = none ∨ conn.roomId ≠ some roomId) :
    ∃ mtext, ∀ k : ClientInfo → ServerState × List Effect,
      requireJoined st conn c rid roomId k =
        (st, [Effect.send c (S2C.error rid "not_in_room" mtext)]) := by
  cases hu : conn.user with
  | none =>
    exact ⟨"Join a room first", fun k => by simp [requireJoined, hu]⟩
  | some u =>
    cases hrm : conn.roomId with
    | none => exact ⟨"Join a room first", fun k => by simp [requireJoined, hu, hrm]⟩
    | some r =>
      rcases hguard with h | h | h
      · simp [hu] at h
      · simp [hrm] at h
      · refine ⟨"Not in that room", fun k => ?_⟩
        have hne : ¬roomId = r := fun hh => h (by rw [hrm, hh])
        simp [requireJoined, hu, hrm, hne]

/-- C7, amended: for every room-scoped message other than `room/join` AND
`room/leave` — i.e. chat/send, watch/set_content, watch/playback_state,
webrtc/offer, webrtc/answer, webrtc/ice, user/update, reaction/send — a
sender that is not Joined, or whose request names a room other than its bound
room, receives an error envelope with code `not_in_room` (after the optional
ack) and the server state is left completely unchanged.  (`room/leave`
itself, excluded here, answers `unauthorized` when the sender never joined
and does not validate the room identifier; see the counterexample.) -/
theorem c7_guard_rejects_unjoined (st : ServerState) (c : ConnId) (conn : Conn)
    (rid : Option String) (roomId : RoomId)
    (text contentId sdp upd reaction source : String)
    (pst : PlaybackState) (toUserId : UserId) (cand : Nat) (now : Nat)
    (hc : alGet st.conns c = some conn)
    (hguard : conn.user = none ∨ conn.roomId = none ∨ conn.roomId ≠ some roomId) :
    ∀ m ∈ [C2S.chatSend roomId text, C2S.watchSetContent roomId contentId,
           C2S.watchPlayback roomId pst, C2S.webrtcOffer roomId toUserId sdp,
           C2S.webrtcAnswer roomId toUserId sdp, C2S.webrtcIce roomId toUserId cand,
           C2S.userUpdate roomId upd, C2S.reactionSend roomId reaction source],
      (handleMessage st c rid m now).1 = st ∧
      ∃ mtext, (handleMessage st c rid m now).2 =
        ackEffects rid c ++ [Effect.send c (S2C.error rid "not_in_room" mtext)] := by
  intro m hm
  obtain ⟨mtext, hreq⟩ := requireJoined_guard st conn c rid roomId hguard
  fin_cases hm <;>
    exact ⟨by simp [handleMessage, hc, hreq], mtext, by simp [handleMessage, hc, hreq]⟩

/-- Witness for the amended C7 at a concrete state and message: a `chat/send`
from an unjoined connection leaves the state unchanged and is answered
`not_in_room`. -/
theorem c7_guard_rejects_unjoined_witness :
    (handleMessage wStUnjoined 1 none (C2S.chatSend "r" "hi") 4).1 = wStUnjoined ∧
    ∃ mtext, (handleMessage wStUnjoined 1 none (C2S.chatSend "r" "hi") 4).2 =
      ackEffects none 1 ++ [Effect.send 1 (S2C.error none "not_in_room" mtext)] :=
  c7_guard_rejects_unjoined wStUnjoined 1 { user := none, roomId := none } none "r"
    "hi" "url" "sdp" "muted" "heart" "ui" ⟨true, 1, 2⟩ "v" 3 4
    (by decide) (Or.inl rfl) (C2S.chatSend "r" "hi") (by simp)

theorem sendTargets_append (l1 l2 : List Effect) (t : Tag) :
    sendTargets (l1 ++ l2) t = sendTargets l1 t ++ sendTargets l2 t := by
  simp [sendTargets, List.filterMap_append]

theorem sendTargets_map_send (l : List (UserId × ConnId)) (msg : S2C) (t : Tag)
    (h : msgTag msg = t) :
    sendTargets (l.map fun p => Effect.send p.2 msg) t = l.map Prod.snd := by
  induction l with
  | nil => rfl
  | cons p l ih => simp [sendTargets, h] at ih ⊢; exact ih

theorem sendTargets_ack (rid : Option String) (c : ConnId) (t : Tag) (h : t ≠ Tag.ackT) :
    sendTargets (ackEffects rid c) t = [] := by
  cases rid with
  | none => rfl
  | some r =>
    have hne : ¬Tag.ackT = t := fun hh => h hh.symm
    simp [ackEffects, sendTargets, msgTag, hne]

@[simp]
theorem sendTargets_nil (t : Tag) : sendTargets [] t = [] := rfl

@[simp]
theorem sendTargets_cons_send (d : ConnId) (msg : S2C) (l : List Effect) (t : Tag) :
    sendTargets (Effect.send d msg :: l) t =
      (if msgTag msg = t then [d] else []) ++ sendTargets l t := by
  by_cases h : msgTag msg = t <;> simp [sendTargets, h]

@[simp]
theorem sendTargets_cons_close (d : ConnId) (code : Nat) (reason : String)
    (l : List Effect) (t : Tag) :
    sendTargets (Effect.closeWs d code reason :: l) t = sendTargets l t := by
  simp [sendTargets]

@[simp]
theorem sendTargets_cons_register (r : RoomId) (u : UserId) (c : ConnId)
    (l : List Effect) (t : Tag) :
    sendTargets (Effect.register r u c :: l) t = sendTargets l t := by
  simp [sendTargets]

/-- C9: among the broadcasts triggered by client messages of a Joined
connection (user `u` bound to the addressed room), `chat/message`,
`watch/content`, `watch/playback_state` and `reaction/received` go to every
connection in the room's map — the sender included — while `user/updated`
goes to every connection except the sender's identity, and the
`room/peer_joined` emitted by a join goes to every member of the post-join
map except the joining identity. -/
theorem c9_broadcast_recipients (st : ServerState) (c : ConnId) (u : ClientInfo)
    (rid : Option String) (roomId : RoomId) (room : Room) (now : Nat)
    (text contentId upd reaction source : String) (pst : PlaybackState) (client : ClientInfo)
    (hc : alGet st.conns c = some { user := some u, roomId := some roomId })
    (hr : alGet st.rooms roomId = some room) :
    sendTargets (handleMessage st c rid (C2S.chatSend roomId text) now).2 Tag.chatMessageT =
      room.connsByUserId.map Prod.snd ∧
    sendTargets (handleMessage st c rid (C2S.watchSetContent roomId contentId) now).2
        Tag.watchContentT = room.connsByUserId.map Prod.snd ∧
    sendTargets (handleMessage st c rid (C2S.watchPlayback roomId pst) now).2
        Tag.watchPlaybackT = room.connsByUserId.map Prod.snd ∧
    sendTargets (handleMessage st c rid (C2S.reactionSend roomId reaction source) now).2
        Tag.reactionReceivedT = room.connsByUserId.map Prod.snd ∧
    sendTargets (handleMessage st c rid (C2S.userUpdate roomId upd) now).2 Tag.userUpdatedT =
      (room.connsByUserId.filter fun p => !decide (p.1 = u.userId)).map Prod.snd ∧
    (∃ room', alGet (handleMessage st c rid (C2S.roomJoin roomId client) now).1.rooms roomId =
        some room' ∧
      sendTargets (handleMessage st c rid (C2S.roomJoin roomId client) now).2 Tag.peerJoinedT =
        (room'.connsByUserId.filter fun p => !decide (p.1 = client.userId)).map Prod.snd) := by
  refine ⟨?_, ?_, ?_, ?_, ?_, ?_⟩
  · simp only [handleMessage, hc, requireJoined, broadcastEffs, hr]
    simp [sendTargets_append, sendTargets_ack, sendTargets_map_send, msgTag]
  · simp only [handleMessage, hc, requireJoined, broadcastEffs, hr]
    simp [sendTargets_append, sendTargets_ack, sendTargets_map_send, msgTag]
  · simp only [handleMessage, hc, requireJoined, broadcastEffs, hr]
    simp [sendTargets_append, sendTargets_ack, sendTargets_map_send, msgTag]
  · simp only [handleMessage, hc, requireJoined, broadcastEffs, hr]
    simp [sendTargets_append, sendTargets_ack, sendTargets_map_send, msgTag]
  · simp only [handleMessage, hc, requireJoined, broadcastEffs, hr]
    simp [sendTargets_append, sendTargets_ack, sendTargets_map_send, msgTag]
  · cases hct : room.cleanupTimer with
    | none =>
      refine ⟨{ room with connsByUserId := alSet room.connsByUserId client.userId c }, ?_, ?_⟩
      · simp [handleMessage, hc, joinCore, hr, hct]
      · rcases hex : alGet room.connsByUserId client.userId with _ | ec
        · simp only [handleMessage, hc, joinCore, hr, hct, hex, broadcastEffs, alGet_alSet_self]
          rw [sendTargets_append, sendTargets_ack _ _ _ (by simp)]
          simp [sendTargets_map_send, msgTag]
        · by_cases hec : ec = c <;>
          · simp only [handleMessage, hc, joinCore, hr, hct, hex, hec, broadcastEffs,
              alGet_alSet_self]
            rw [sendTargets_append, sendTargets_ack _ _ _ (by simp)]
            simp [sendTargets_map_send, msgTag, hec]
    | some tmr =>
      refine ⟨{ room with connsByUserId := alSet room.connsByUserId client.userId c,
                          cleanupTimer := none }, ?_, ?_⟩
      · simp [handleMessage, hc, joinCore, hr, hct]
      · rcases hex : alGet room.connsByUserId client.userId with _ | ec
        · simp only [handleMessage, hc, joinCore, hr, hct, hex, broadcastEffs, alGet_alSet_self]
          rw [sendTargets_append, sendTargets_ack _ _ _ (by simp)]
          simp [sendTargets_map_send, msgTag]
        · by_cases hec : ec = c <;>
          · simp only [handleMessage, hc, joinCore, hr, hct, hex, hec, broadcastEffs,
              alGet_alSet_self]
            rw [sendTargets_append, sendTargets_ack _ _ _ (by simp)]
            simp [sendTargets_map_send, msgTag, hec]

/-- Witness for C9 at a concrete two-member room: chat goes to transports
1 and 2 (sender included), `user/updated` only to transport 2, and the
`room/peer_joined` of "v"'s join to transports 1 and 2 but not to "v". -/
theorem c9_broadcast_recipients_witness :
    sendTargets (handleMessage wStRoom 1 none (C2S.chatSend "r" "hi") 3).2 Tag.chatMessageT =
      ([("u", 1), ("w", 2)] : List (UserId × ConnId)).map Prod.snd ∧
    sendTargets (handleMessage wStRoom 1 none (C2S.watchSetContent "r" "url") 3).2
        Tag.watchContentT = ([("u", 1), ("w", 2)] : List (UserId × ConnId)).map Prod.snd ∧
    sendTargets (handleMessage wStRoom 1 none (C2S.watchPlayback "r" ⟨true, 1, 2⟩) 3).2
        Tag.watchPlaybackT = ([("u", 1), ("w", 2)] : List (UserId × ConnId)).map Prod.snd ∧
    sendTargets (handleMessage wStRoom 1 none (C2S.reactionSend "r" "heart" "ui") 3).2
        Tag.reactionReceivedT = ([("u", 1), ("w", 2)] : List (UserId × ConnId)).map Prod.snd ∧
    sendTargets (handleMessage wStRoom 1 none (C2S.userUpdate "r" "muted") 3).2
        Tag.userUpdatedT =
      (([("u", 1), ("w", 2)] : List (UserId × ConnId)).filter
        fun p => !decide (p.1 = uAlice.userId)).map Prod.snd ∧
    (∃ room', alGet (handleMessage wStRoom 1 none (C2S.roomJoin "r" vBob) 3).1.rooms "r" =
        some room' ∧
      sendTargets (handleMessage wStRoom 1 none (C2S.roomJoin "r" vBob) 3).2 Tag.peerJoinedT =
        (room'.connsByUserId.filter fun p => !decide (p.1 = vBob.userId)).map Prod.snd) :=
  c9_broadcast_recipients wStRoom 1 uAlice none "r"
    { connsByUserId := [("u", 1), ("w", 2)], cleanupTimer := none } 3
    "hi" "url" "muted" "heart" "ui" ⟨true, 1, 2⟩ vBob (by decide) (by decide)

/-! ## C8: the server hello -/

theorem runTrace_append (st : ServerState) (l1 l2 : List TEvent) :
    runTrace st (l1 ++ l2) = runTrace (runTrace st l1) l2 := by
  induction l1 generalizing st with
  | nil => rfl
  | cons e l1 ih => simp [runTrace, ih]

theorem validFrom_evGuard (tr : List TEvent) (st : ServerState) (last : Nat)
    (h : validFrom st last tr = true) (i : Nat) (e : TEvent) (hi : tr.get? i = some e) :
    evGuard (runTrace st (tr.take i)) e = true := by
  induction tr generalizing st last i with
  | nil => simp at hi
  | cons e0 tr ih =>
    simp only [validFrom, Bool.and_eq_true] at h
    cases i with
    | zero =>
      simp only [List.get?] at hi
      injection hi with hi
      subst hi
      exact h.1.2
    | succ i =>
      simp only [List.get?] at hi
      exact ih (stepEv st e0).1 e0.time h.2 i hi

theorem requireJoined_fst (st : ServerState) (conn : Conn) (c : ConnId)
    (rid : Option String) (roomId : RoomId) (k : ClientInfo → ServerState × List Effect)
    (hk : ∀ u, (k u).1 = st) :
    (requireJoined st conn c rid roomId k).1 = st := by
  unfold requireJoined
  rcases conn.user with _ | u <;> rcases hrm : conn.roomId with _ | r <;> simp
  by_cases hr : roomId = r <;> simp [hr, hk]

theorem leaveRoomFn_conns (st : ServerState) (c : ConnId) (roomId : RoomId) (now : Nat) :
    (leaveRoomFn st c roomId now).1.conns = st.conns ∨
    ∃ v, (alGet st.conns c).isSome ∧
      (leaveRoomFn st c roomId now).1.conns = alSet st.conns c v := by
  rcases hc : alGet st.conns c with _ | conn
  · exact Or.inl (by simp [leaveRoomFn, hc])
  rcases hr : alGet st.rooms roomId with _ | room
  · exact Or.inl (by simp [leaveRoomFn, hc, hr])
  rcases hu : conn.user with _ | user
  · exact Or.inl (by simp [leaveRoomFn, hc, hr, hu])
  refine Or.inr ⟨{ conn with roomId := none }, by simp [hc], ?_⟩
  by_cases hlen : (alDel room.connsByUserId user.userId).length = 0 <;>
    simp [leaveRoomFn, hc, hr, hu, hlen]

theorem fireTimer_conns (st : ServerState) (t : TimerId) : (fireTimer st t).conns = st.conns := by
  rcases hft : st.timers.find? (fun tm => tm.id == t) with _ | tm
  · simp [fireTimer, hft]
  rcases hrm : alGet st.rooms tm.room with _ | room
  · simp [fireTimer, hft, hrm]
  by_cases h : room.connsByUserId.length = 0 <;> simp [fireTimer, hft, hrm, h]

theorem handleMessage_conns (st : ServerState) (c : ConnId) (rid : Option String)
    (m : C2S) (now : Nat) :
    (handleMessage st c rid m now).1.conns = st.conns ∨
    ∃ v, (alGet st.conns c).isSome ∧
      (handleMessage st c rid m now).1.conns = alSet st.conns c v := by
  rcases hc : alGet st.conns c with _ | conn
  · exact Or.inl (by simp [handleMessage, hc])
  cases m with
  | roomJoin roomId client =>
    refine Or.inr ⟨{ user := some client, roomId := some roomId }, by simp [hc], ?_⟩
    rcases hr : alGet st.rooms roomId with _ | room
    · simp [handleMessage, hc, joinCore, hr]
    · rcases hct : room.cleanupTimer with _ | tmr <;>
        simp [handleMessage, hc, joinCore, hr, hct]
  | roomLeave roomId =>
    rcases hu : conn.user with _ | user
    · exact Or.inl (by simp [handleMessage, hc, hu])
    · have hl := leaveRoomFn_conns st c roomId now
      simpa [handleMessage, hc, hu] using hl
  | chatSend roomId text =>
    exact Or.inl (by simp [handleMessage, hc]; rw [requireJoined_fst]; intro u; rfl)
  | watchSetContent roomId contentId =>
    exact Or.inl (by simp [handleMessage, hc]; rw [requireJoined_fst]; intro u; rfl)
  | watchPlayback roomId pst =>
    exact Or.inl (by simp [handleMessage, hc]; rw [requireJoined_fst]; intro u; rfl)
  | webrtcOffer roomId toUserId sdp =>
    exact Or.inl (by
      simp [handleMessage, hc]
      rw [requireJoined_fst]
      intro u
      rcases (alGet st.rooms roomId).bind fun room => alGet room.connsByUserId toUserId <;> rfl)
  | webrtcAnswer roomId toUserId sdp =>
    exact Or.inl (by
      simp [handleMessage, hc]
      rw [requireJoined_fst]
      intro u
      rcases (alGet st.rooms roomId).bind fun room => alGet room.connsByUserId toUserId <;> rfl)
  | webrtcIce roomId toUserId cand =>
    exact Or.inl (by
      simp [handleMessage, hc]
      rw [requireJoined_fst]
      intro u
      rcases (alGet st.rooms roomId).bind fun room => alGet room.connsByUserId toUserId <;> rfl)
  | userUpdate roomId upd =>
    exact Or.inl (by simp [handleMessage, hc]; rw [requireJoined_fst]; intro u; rfl)
  | reactionSend roomId reaction source =>
    exact Or.inl (by simp [handleMessage, hc]; rw [requireJoined_fst]; intro u; rfl)

theorem alGet_alSet_isSome {α β : Type} [DecidableEq α] (l : List (α × β)) (k x : α) (v : β)
    (h : (alGet l x).isSome) : (alGet (alSet l k v) x).isSome := by
  by_cases hx : x = k
  · subst hx; simp
  · rwa [alGet_alSet_ne _ _ _ _ hx]

theorem stepEv_conns_isSome (st : ServerState) (e : TEvent) (x : ConnId)
    (h : (alGet st.conns x).isSome) : (alGet (stepEv st e).1.conns x).isSome := by
  cases hev : e.ev with
  | connect c =>
    simp only [stepEv, hev]
    exact alGet_alSet_isSome _ _ _ _ h
  | message c rid m =>
    simp only [stepEv, hev]
    rcases handleMessage_conns st c rid m e.time with hcs | ⟨v, _, hcs⟩ <;> rw [hcs]
    · exact h
    · exact alGet_alSet_isSome _ _ _ _ h
  | closeEvt c =>
    simp only [stepEv, hev]
    rcases hc0 : alGet st.conns c with _ | conn
    · simpa using h
    · rcases hu : conn.user with _ | user <;> rcases hrm : conn.roomId with _ | r
      all_goals simp only [hc0, hu, hrm]
      · simpa using h
      · simpa using h
      · simpa using h
      · have hl := leaveRoomFn_conns
          { st with closedEvts := st.closedEvts ++ [c] } c r e.time
        rcases hl with hcs | ⟨v, _, hcs⟩ <;> rw [hcs]
        · simpa using h
        · exact alGet_alSet_isSome _ _ _ _ (by simpa using h)
  | timerFire t =>
    simp only [stepEv, hev, fireTimer_conns]
    exact h

theorem stepEv_conns_isNone (st : ServerState) (e : TEvent) (x : ConnId)
    (h : (alGet st.conns x).isNone) (hne : e.ev ≠ SEvent.connect x) :
    (alGet (stepEv st e).1.conns x).isNone := by
  cases hev : e.ev with
  | connect c =>
    have hcx : ¬x = c := fun hh => hne (by rw [hev, hh])
    simp only [stepEv, hev]
    rwa [alGet_alSet_ne _ _ _ _ hcx]
  | message c rid m =>
    simp only [stepEv, hev]
    rcases handleMessage_conns st c rid m e.time with hcs | ⟨v, hsome, hcs⟩ <;> rw [hcs]
    · exact h
    · have hcx : ¬x = c := fun hh => by
        rw [hh] at h
        rw [Option.isNone_iff_eq_none] at h
        rw [h] at hsome
        simp at hsome
      rwa [alGet_alSet_ne _ _ _ _ hcx]
  | closeEvt c =>
    simp only [stepEv, hev]
    rcases hc0 : alGet st.conns c with _ | conn
    · simpa using h
    · rcases hu : conn.user with _ | user <;> rcases hrm : conn.roomId with _ | r
      all_goals simp only [hc0, hu, hrm]
      · simpa using h
      · simpa using h
      · simpa using h
      · have hl := leaveRoomFn_conns
          { st with closedEvts := st.closedEvts ++ [c] } c r e.time
        rcases hl with hcs | ⟨v, hsome, hcs⟩ <;> rw [hcs]
        · simpa using h
        · have hcx : ¬x = c := fun hh => by
            rw [hh, hc0] at h
            simp at h
          rw [alGet_alSet_ne _ _ _ _ hcx]
          simpa using h
  | timerFire t =>
    simp only [stepEv, hev, fireTimer_conns]
    exact h

theorem runTrace_conns_isSome (l : List TEvent) (st : ServerState) (x : ConnId)
    (h : (alGet st.conns x).isSome) : (alGet (runTrace st l).conns x).isSome := by
  induction l generalizing st with
  | nil => exact h
  | cons e l ih => exact ih _ (stepEv_conns_isSome st e x h)

theorem conns_connect_exists (l : List TEvent) (st0 : ServerState) (x : ConnId)
    (h0 : (alGet st0.conns x).isNone)
    (h1 : (alGet (runTrace st0 l).conns x).isSome) :
    ∃ j τ', l.get? j = some ⟨τ', SEvent.connect x⟩ := by
  induction l generalizing st0 with
  | nil =>
    simp [runTrace] at h1
    rw [Option.isNone_iff_eq_none] at h0
    rw [h0] at h1
    simp at h1
  | cons e l ih =>
    by_cases he : e.ev = SEvent.connect x
    · exact ⟨0, e.time, by cases e with | mk time ev => simp at he; subst he; rfl⟩
    · obtain ⟨j, τ', hj⟩ := ih (stepEv st0 e).1 (stepEv_conns_isNone st0 e x h0 he) h1
      exact ⟨j + 1, τ', by simpa using hj⟩

theorem connect_once (tr : List TEvent) (h : validTrace tr = true) (c : ConnId)
    (k1 k2 : Nat) (τ1 τ2 : Nat)
    (h1 : tr.get? k1 = some ⟨τ1, SEvent.connect c⟩)
    (h2 : tr.get? k2 = some ⟨τ2, SEvent.connect c⟩) : k1 = k2 := by
  by_contra hne
  -- cut by symmetry on which index is smaller
  wlog hlt : k1 < k2 generalizing k1 k2 τ1 τ2
  · exact this k2 k1 τ2 τ1 h2 h1 (fun hh => hne hh.symm) (by omega)
  -- the state just before k2 already knows connection c
  have hguard := validFrom_evGuard tr initState 0 h k2 _ h2
  simp only [evGuard] at hguard
  have hsome : (alGet (runTrace initState (tr.take k2)).conns c).isSome := by
    have hdecomp : tr.take k2 = tr.take (k1 + 1) ++ (tr.drop (k1 + 1)).take (k2 - (k1 + 1)) := by
      rw [← List.take_add]
      congr 1
      omega
    have hget : tr[k1]? = some ⟨τ1, SEvent.connect c⟩ := by
      rw [← List.get?_eq_getElem?]
      exact h1
    have htk : tr.take (k1 + 1) = tr.take k1 ++ [⟨τ1, SEvent.connect c⟩] := by
      rw [List.take_succ, hget]
      rfl
    rw [hdecomp, runTrace_append, htk, runTrace_append]
    apply runTrace_conns_isSome
    simp [runTrace, stepEv]
  rw [Option.isNone_iff_eq_none] at hguard
  rw [Option.isSome_iff_exists] at hsome
  obtain ⟨v, hv⟩ := hsome
  rw [hv] at hguard
  simp at hguard

theorem ackEffects_no_hello (rid : Option String) (c : ConnId) :
    ((ackEffects rid c).all fun e => !isHelloEffect e) = true := by
  cases rid <;> rfl

theorem broadcastEffs_no_hello (st : ServerState) (roomId : RoomId) (msg : S2C)
    (ex : Option UserId) (hmsg : ∀ d, isHelloEffect (Effect.send d msg) = false) :
    ((broadcastEffs st roomId msg ex).all fun e => !isHelloEffect e) = true := by
  rw [List.all_eq_true]
  intro e he
  obtain ⟨d, rfl⟩ := broadcastEffs_mem st roomId msg ex e he
  simp [hmsg d]

theorem joinCore_no_hello (st : ServerState) (c : ConnId) (conn : Conn) (roomId : RoomId)
    (client : ClientInfo) :
    ((joinCore st c conn roomId client).2.all fun e => !isHelloEffect e) = true := by
  rw [List.all_eq_true]
  intro e he
  rcases hr : alGet st.rooms roomId with _ | room
  · simp [joinCore, hr, alGet] at he
    rcases he with h | h | h <;>
      first
        | (subst h; rfl)
        | (obtain ⟨d, rfl⟩ := broadcastEffs_mem _ _ _ _ _ h; rfl)
  · rcases hct : room.cleanupTimer with _ | tmr <;>
    · rcases hex : alGet room.connsByUserId client.userId with _ | ec
      · simp [joinCore, hr, hct, hex] at he
        rcases he with h | h | h <;>
          first
            | (subst h; rfl)
            | (obtain ⟨d, rfl⟩ := broadcastEffs_mem _ _ _ _ _ h; rfl)
      · by_cases hec : ec = c
        · simp [joinCore, hr, hct, hex, hec] at he
          rcases he with h | h | h <;>
            first
              | (subst h; rfl)
              | (obtain ⟨d, rfl⟩ := broadcastEffs_mem _ _ _ _ _ h; rfl)
        · simp [joinCore, hr, hct, hex, hec] at he
          rcases he with h | h | h | h <;>
            first
              | (subst h; rfl)
              | (obtain ⟨d, rfl⟩ := broadcastEffs_mem _ _ _ _ _ h; rfl)

theorem leaveRoomFn_no_hello (st : ServerState) (c : ConnId) (roomId : RoomId) (now : Nat) :
    ((leaveRoomFn st c roomId now).2.all fun e => !isHelloEffect e) = true := by
  rcases hc : alGet st.conns c with _ | conn
  · simp [leaveRoomFn, hc]
  rcases hr : alGet st.rooms roomId with _ | room
  · simp [leaveRoomFn, hc, hr]
  rcases hu : conn.user with _ | user
  · simp [leaveRoomFn, hc, hr, hu]
  have hbe : (leaveRoomFn st c roomId now).2 = broadcastEffs { st with rooms := alSet st.rooms roomId { room with connsByUserId := alDel room.connsByUserId user.userId } } roomId (S2C.peerLeft roomId user.userId) none := by
    by_cases hlen : (alDel room.connsByUserId user.userId).length = 0 <;>
      simp [leaveRoomFn, hc, hr, hu, hlen]
  rw [hbe]
  exact broadcastEffs_no_hello _ _ _ _ (fun d => rfl)

theorem requireJoined_all (st : ServerState) (conn : Conn) (c : ConnId)
    (rid : Option String) (roomId : RoomId) (k : ClientInfo → ServerState × List Effect)
    (P : Effect → Bool)
    (herr : ∀ mtext, P (Effect.send c (S2C.error rid "not_in_room" mtext)) = true)
    (hk : ∀ u, ((k u).2.all P) = true) :
    ((requireJoined st conn c rid roomId k).2.all P) = true := by
  unfold requireJoined
  rcases conn.user with _ | u <;> rcases conn.roomId with _ | r <;> simp [herr]
  by_cases hr : roomId = r
  · simp [hr]
    exact List.all_eq_true.mp (hk u)
  · simp [hr, herr]

theorem handleMessage_no_hello (st : ServerState) (c : ConnId) (rid : Option String)
    (m : C2S) (now : Nat) :
    ((handleMessage st c rid m now).2.all fun e => !isHelloEffect e) = true := by
  rcases hc : alGet st.conns c with _ | conn
  · simp [handleMessage, hc]
  have hack := ackEffects_no_hello rid c
  cases m with
  | roomJoin roomId client =>
    have heq : (handleMessage st c rid (C2S.roomJoin roomId client) now).2 =
        ackEffects rid c ++ (joinCore st c conn roomId client).2 := by
      simp [handleMessage, hc]
    rw [heq, List.all_append, Bool.and_eq_true]
    exact ⟨hack, joinCore_no_hello st c conn roomId client⟩
  | roomLeave roomId =>
    rcases hu : conn.user with _ | user
    · have heq : (handleMessage st c rid (C2S.roomLeave roomId) now).2 =
          ackEffects rid c ++ [Effect.send c (S2C.error rid "unauthorized" "Not joined")] := by
        simp [handleMessage, hc, hu]
      rw [heq, List.all_append, Bool.and_eq_true]
      exact ⟨hack, rfl⟩
    · have heq : (handleMessage st c rid (C2S.roomLeave roomId) now).2 =
          ackEffects rid c ++ (leaveRoomFn st c roomId now).2 := by
        simp [handleMessage, hc, hu]
      rw [heq, List.all_append, Bool.and_eq_true]
      exact ⟨hack, leaveRoomFn_no_hello st c roomId now⟩
  | chatSend roomId text =>
    have heq : (handleMessage st c rid (C2S.chatSend roomId text) now).2 =
        ackEffects rid c ++ (requireJoined st conn c rid roomId fun u =>
          (st, broadcastEffs st roomId (S2C.chatMessage roomId u text now) none)).2 := by
      simp [handleMessage, hc]
    rw [heq, List.all_append, Bool.and_eq_true]
    refine ⟨hack, requireJoined_all st conn c rid roomId _ _ (fun mtext => rfl) fun u => ?_⟩
    exact broadcastEffs_no_hello st roomId (S2C.chatMessage roomId u text now) none fun d => rfl
  | watchSetContent roomId contentId =>
    have heq : (handleMessage st c rid (C2S.watchSetContent roomId contentId) now).2 =
        ackEffects rid c ++ (requireJoined st conn c rid roomId fun _ =>
          (st, broadcastEffs st roomId (S2C.watchContent roomId contentId) none)).2 := by
      simp [handleMessage, hc]
    rw [heq, List.all_append, Bool.and_eq_true]
    refine ⟨hack, requireJoined_all st conn c rid roomId _ _ (fun mtext => rfl) fun u => ?_⟩
    exact broadcastEffs_no_hello st roomId (S2C.watchContent roomId contentId) none fun d => rfl
  | watchPlayback roomId pst =>
    have heq : (handleMessage st c rid (C2S.watchPlayback roomId pst) now).2 =
        ackEffects rid c ++ (requireJoined st conn c rid roomId fun u =>
          (st, broadcastEffs st roomId
            (S2C.watchPlayback roomId pst now u.userId) none)).2 := by
      simp [handleMessage, hc]
    rw [heq, List.all_append, Bool.and_eq_true]
    refine ⟨hack, requireJoined_all st conn c rid roomId _ _ (fun mtext => rfl) fun u => ?_⟩
    exact broadcastEffs_no_hello st roomId
      (S2C.watchPlayback roomId pst now u.userId) none fun d => rfl
  | webrtcOffer roomId toUserId sdp =>
    have heq : (handleMessage st c rid (C2S.webrtcOffer roomId toUserId sdp) now).2 =
        ackEffects rid c ++ (requireJoined st conn c rid roomId fun u =>
          match (alGet st.rooms roomId).bind fun room =>
              alGet room.connsByUserId toUserId with
          | none => (st, [Effect.send c (S2C.error rid "peer_not_found" "Peer not found")])
          | some toC => (st, [Effect.send toC (S2C.webrtcOffer roomId u.userId sdp)])).2 := by
      simp [handleMessage, hc]
    rw [heq, List.all_append, Bool.and_eq_true]
    refine ⟨hack, requireJoined_all st conn c rid roomId _ _ (fun mtext => rfl) fun u => ?_⟩
    rcases (alGet st.rooms roomId).bind fun room => alGet room.connsByUserId toUserId <;> rfl
  | webrtcAnswer roomId toUserId sdp =>
    have heq : (handleMessage st c rid (C2S.webrtcAnswer roomId toUserId sdp) now).2 =
        ackEffects rid c ++ (requireJoined st conn c rid roomId fun u =>
          match (alGet st.rooms roomId).bind fun room =>
              alGet room.connsByUserId toUserId with
          | none => (st, [Effect.send c (S2C.error rid "peer_not_found" "Peer not found")])
          | some toC => (st, [Effect.send toC (S2C.webrtcAnswer roomId u.userId sdp)])).2 := by
      simp [handleMessage, hc]
    rw [heq, List.all_append, Bool.and_eq_true]
    refine ⟨hack, requireJoined_all st conn c rid roomId _ _ (fun mtext => rfl) fun u => ?_⟩
    rcases (alGet st.rooms roomId).bind fun room => alGet room.connsByUserId toUserId <;> rfl
  | webrtcIce roomId toUserId cand =>
    have heq : (handleMessage st c rid (C2S.webrtcIce roomId toUserId cand) now).2 =
        ackEffects rid c ++ (requireJoined st conn c rid roomId fun u =>
          match (alGet st.rooms roomId).bind fun room =>
              alGet room.connsByUserId toUserId with
          | none => (st, [Effect.send c (S2C.error rid "peer_not_found" "Peer not found")])
          | some toC => (st, [Effect.send toC (S2C.webrtcIce roomId u.userId cand)])).2 := by
      simp [handleMessage, hc]
    rw [heq, List.all_append, Bool.and_eq_true]
    refine ⟨hack, requireJoined_all st conn c rid roomId _ _ (fun mtext => rfl) fun u => ?_⟩
    rcases (alGet st.rooms roomId).bind fun room => alGet room.connsByUserId toUserId <;> rfl
  | userUpdate roomId upd =>
    have heq : (handleMessage st c rid (C2S.userUpdate roomId upd) now).2 =
        ackEffects rid c ++ (requireJoined st conn c rid roomId fun u =>
          (st, broadcastEffs st roomId (S2C.userUpdated roomId u.userId upd)
            (some u.userId))).2 := by
      simp [handleMessage, hc]
    rw [heq, List.all_append, Bool.and_eq_true]
    refine ⟨hack, requireJoined_all st conn c rid roomId _ _ (fun mtext => rfl) fun u => ?_⟩
    exact broadcastEffs_no_hello st roomId (S2C.userUpdated roomId u.userId upd)
      (some u.userId) fun d => rfl
  | reactionSend roomId reaction source =>
    have heq : (handleMessage st c rid (C2S.reactionSend roomId reaction source) now).2 =
        ackEffects rid c ++ (requireJoined st conn c rid roomId fun u =>
          (st, broadcastEffs st roomId
            (S2C.reactionReceived roomId u.userId u.displayName reaction source now)
            none)).2 := by
      simp [handleMessage, hc]
    rw [heq, List.all_append, Bool.and_eq_true]
    refine ⟨hack, requireJoined_all st conn c rid roomId _ _ (fun mtext => rfl) fun u => ?_⟩
    exact broadcastEffs_no_hello st roomId
      (S2C.reactionReceived roomId u.userId u.displayName reaction source now) none
      fun d => rfl

theorem stepEv_no_hello (st : ServerState) (e : TEvent)
    (hne : ∀ c, e.ev ≠ SEvent.connect c) :
    ((stepEv st e).2.all fun eff => !isHelloEffect eff) = true := by
  cases hev : e.ev with
  | connect c => exact absurd hev (hne c)
  | message c rid m =>
    simp only [stepEv, hev]
    exact handleMessage_no_hello st c rid m e.time
  | closeEvt c =>
    simp only [stepEv, hev]
    rcases hc0 : alGet st.conns c with _ | conn
    · simp
    · rcases hu : conn.user with _ | user <;> rcases hrm : conn.roomId with _ | r
      all_goals simp only [hc0, hu, hrm]
      · simp
      · simp
      · simp
      · exact leaveRoomFn_no_hello _ c r e.time
  | timerFire t =>
    simp [stepEv, hev]

theorem get?_of_take_get? (tr : List TEvent) (i j : Nat) (e : TEvent)
    (hj : (tr.take i).get? j = some e) : j < i ∧ tr.get? j = some e := by
  have hjlen : j < (tr.take i).length := by
    by_contra hge
    rw [List.get?_eq_none.mpr (by omega)] at hj
    simp at hj
  have hji : j < i := by
    rw [List.length_take] at hjlen
    omega
  refine ⟨hji, ?_⟩
  rw [List.get?_eq_getElem?] at hj ⊢
  rwa [List.getElem?_take_of_lt hji] at hj

/-- C8: along every admissible event trace, any message handled from a
transport is preceded by that transport's unique connection event, whose
handler emits exactly one effect: a `server/hello` envelope to that transport
carrying the protocol version and the wall-clock time of the connection; and
no other kind of event ever emits a `server/hello`. -/
theorem c8_server_hello_first (tr : List TEvent) (h : validTrace tr = true)
    (i τ : Nat) (c : ConnId) (rid : Option String) (m : C2S)
    (hi : tr.get? i = some ⟨τ, SEvent.message c rid m⟩) :
    ∃ j τ', j < i ∧ tr.get? j = some ⟨τ', SEvent.connect c⟩ ∧
      (stepEv (runTrace initState (tr.take j)) ⟨τ', SEvent.connect c⟩).2 =
        [Effect.send c (S2C.serverHello WS_VERSION τ')] ∧
      (∀ k τ'', tr.get? k = some ⟨τ'', SEvent.connect c⟩ → k = j) ∧
      (∀ k e', tr.get? k = some e' → (∀ c', e'.ev ≠ SEvent.connect c') →
        ((stepEv (runTrace initState (tr.take k)) e').2.all
          fun eff => !isHelloEffect eff) = true) := by
  have hguard := validFrom_evGuard tr initState 0 h i _ hi
  simp only [evGuard, Bool.and_eq_true] at hguard
  have hsome : (alGet (runTrace initState (tr.take i)).conns c).isSome := hguard.1
  have h0 : (alGet (initState).conns c).isNone := rfl
  obtain ⟨j, τ', hj⟩ := conns_connect_exists (tr.take i) initState c h0 hsome
  obtain ⟨hji, hjtr⟩ := get?_of_take_get? tr i j _ hj
  refine ⟨j, τ', hji, hjtr, rfl, ?_, ?_⟩
  · intro k τ'' hk
    exact connect_once tr h c k j τ'' τ' hk hjtr
  · intro k e' _ hne
    exact stepEv_no_hello (runTrace initState (tr.take k)) e' hne

/-- Witness for C8 on a concrete two-event trace: the connect at index 0
precedes the message at index 1 and emits exactly the hello stamped 3. -/
theorem c8_server_hello_first_witness :
    ∃ j τ', j < 1 ∧ c8WitnessTrace.get? j = some ⟨τ', SEvent.connect 1⟩ ∧
      (stepEv (runTrace initState (c8WitnessTrace.take j)) ⟨τ', SEvent.connect 1⟩).2 =
        [Effect.send 1 (S2C.serverHello WS_VERSION τ')] ∧
      (∀ k τ'', c8WitnessTrace.get? k = some ⟨τ'', SEvent.connect 1⟩ → k = j) ∧
      (∀ k e', c8WitnessTrace.get? k = some e' → (∀ c', e'.ev ≠ SEvent.connect c') →
        ((stepEv (runTrace initState (c8WitnessTrace.take k)) e').2.all
          fun eff => !isHelloEffect eff) = true) :=
  c8_server_hello_first c8WitnessTrace (by decide) 1 7 1 none (C2S.roomLeave "r") (by decide)
